import Mathlib

/-
Shallow embedding of the NaomiNagata guidance core (Rust) in Lean 4.

Numbers: the Rust code computes with `f64`; the embedding models all
arithmetic over the real numbers `ℝ` (the standard idealisation: exact
real arithmetic, `Real.sqrt` for `f64::sqrt`, and Lean's total division
where `x / 0 = 0`).  Ambient game-state queries (`position()`,
`velocity()` from the oort API) become explicit parameters `shipPos`,
`shipVel`.  Rendering calls (`draw_diamond`) have no modelled effect and
are dropped.  Early `return` statements become `match`/`if` expressions
with the same semantics.
-/

namespace NaomiNagata

open Classical

/-- Model of oort's `Vec2`: a 2-D vector of reals (`f64` in the source). -/
structure Vec2 where
  x : ℝ
  y : ℝ

instance : Add Vec2 where
  add u v := ⟨u.x + v.x, u.y + v.y⟩

instance : Sub Vec2 where
  sub u v := ⟨u.x - v.x, u.y - v.y⟩

instance : SMul ℝ Vec2 where
  smul k v := ⟨k * v.x, k * v.y⟩

theorem Vec2.add_def (u v : Vec2) : u + v = ⟨u.x + v.x, u.y + v.y⟩ := rfl

theorem Vec2.sub_def (u v : Vec2) : u - v = ⟨u.x - v.x, u.y - v.y⟩ := rfl

theorem Vec2.smul_def (k : ℝ) (v : Vec2) : k • v = ⟨k * v.x, k * v.y⟩ := rfl

/-- Dot product, as oort's `Vec2::dot`. -/
noncomputable def Vec2.dot (u v : Vec2) : ℝ :=
  u.x * v.x + u.y * v.y

/-- Euclidean length, as oort's `Vec2::length`. -/
noncomputable def Vec2.len (v : Vec2) : ℝ :=
  Real.sqrt (v.dot v)

/-- Componentwise division by a scalar, as oort's `Vec2 / f64`. -/
noncomputable def Vec2.divScalar (v : Vec2) (k : ℝ) : Vec2 :=
  ⟨v.x / k, v.y / k⟩

/-- Model of `mat2.rs`: a 2x2 real matrix with fields `xx xy yx yy`. -/
structure Mat2 where
  xx : ℝ
  xy : ℝ
  yx : ℝ
  yy : ℝ

/-- Source `Mat2::zero`. -/
noncomputable def Mat2.zero : Mat2 :=
  ⟨0, 0, 0, 0⟩

/-- Source `Mat2::add` (also the `Add` operator impl). -/
noncomputable def Mat2.add (m other : Mat2) : Mat2 :=
  ⟨m.xx + other.xx, m.xy + other.xy, m.yx + other.yx, m.yy + other.yy⟩

/-- Source `Mat2::scale` (also the `Mul<f64>` operator impl). -/
noncomputable def Mat2.scale (m : Mat2) (k : ℝ) : Mat2 :=
  ⟨m.xx * k, m.xy * k, m.yx * k, m.yy * k⟩

/-- Source constant `BULLET_SPEED: f64 = 1000.0`. -/
noncomputable def BULLET_SPEED : ℝ := 1000

/-- Oort engine constant `TICK_LENGTH` (one game tick, 1/60 s). -/
noncomputable def TICK_LENGTH : ℝ := 1 / 60

/-- Source constant `MAX_ITER: usize = 100` in `tracked_target.rs`. -/
def MAX_ITER : ℕ := 100

/-- Quartic polynomial `(((p4 t + p3) t + p2) t + p1) t + p0`, the Horner
form evaluated as `f` inside `firing_solution_const_accel`. -/
noncomputable def quarticF (p4 p3 p2 p1 p0 t : ℝ) : ℝ :=
  (((p4 * t + p3) * t + p2) * t + p1) * t + p0

/-- Derivative `(4 p4 t + 3 p3) t t + 2 p2 t + p1`, the expression
evaluated as `df` inside `firing_solution_const_accel`. -/
noncomputable def quarticDF (p4 p3 p2 p1 t : ℝ) : ℝ :=
  (4 * p4 * t + 3 * p3) * t * t + 2 * p2 * t + p1

/-- One Newton-Raphson update `t_next = t - f/df`, as computed in the loop
body of `firing_solution_const_accel`. -/
noncomputable def newtonStep (p4 p3 p2 p1 p0 t : ℝ) : ℝ :=
  t - quarticF p4 p3 p2 p1 p0 t / quarticDF p4 p3 p2 p1 t

/-- The bounded Newton loop of `firing_solution_const_accel`: fuel counts
the remaining `for _ in 0..MAX_ITER` iterations; `break` returns the
current iterate `t` (before the `t = t_next` assignment). -/
noncomputable def newtonLoop (p4 p3 p2 p1 p0 tol : ℝ) : ℕ → ℝ → ℝ
  | 0, t => t
  | Nat.succ n, t =>
    if |quarticDF p4 p3 p2 p1 t| < 1e-6 then
      t
    else
      let tNext := newtonStep p4 p3 p2 p1 p0 t
      if |tNext - t| < tol then
        t
      else
        newtonLoop p4 p3 p2 p1 p0 tol n tNext

/-- Source `firing_solution_const_accel` in `tracked_target.rs`: Newton
refinement of the intercept time for a constant-acceleration target,
starting from `t_guess`, at most `MAX_ITER` iterations. -/
noncomputable def firing_solution_const_accel (r_rel v_rel a_rel : Vec2)
    (bullet_speed t_guess tol : ℝ) : ℝ :=
  let p4 := 0.5 * a_rel.dot a_rel
  let p3 := v_rel.dot a_rel
  let p2 := v_rel.dot v_rel + r_rel.dot a_rel - bullet_speed * bullet_speed
  let p1 := 2 * r_rel.dot v_rel
  let p0 := r_rel.dot r_rel
  newtonLoop p4 p3 p2 p1 p0 tol MAX_ITER t_guess

/-- Source `firing_solution_const_vel` in `tracked_target.rs` (identical
copies in `target.rs` and `fighter.rs`): closed-form quadratic solution of
the constant-velocity pursuit problem.  The Rust
`match (t1 > 0.0, t2 > 0.0)` is rendered as the equivalent `if` chain. -/
noncomputable def firing_solution_const_vel (r_rel v_rel : Vec2)
    (bullet_speed : ℝ) : Option (ℝ × Vec2) :=
  let a := v_rel.dot v_rel - bullet_speed * bullet_speed
  let b := 2 * v_rel.dot r_rel
  let c := r_rel.dot r_rel
  let disc := b * b - 4 * a * c
  if disc < 0 then
    none
  else
    let sqrt_disc := Real.sqrt disc
    let t1 := (-b - sqrt_disc) / (2 * a)
    let t2 := (-b + sqrt_disc) / (2 * a)
    if 0 < t1 then
      if 0 < t2 then
        some (min t1 t2, r_rel + min t1 t2 • v_rel)
      else
        some (t1, r_rel + t1 • v_rel)
    else
      if 0 < t2 then
        some (t2, r_rel + t2 • v_rel)
      else
        none

/-- Model of the `TrackedTarget` struct in `tracked_target.rs`. -/
structure TrackedTarget where
  r : Vec2
  r_cov : Mat2
  v : Vec2
  v_cov : Mat2
  a : Vec2
  a_cov : Mat2
  time_to_intercept : Option ℝ
  intercept_point : Option Vec2
  firing_priority : ℝ
  radar_priority : ℝ

/-- Source `TrackedTarget::new`. -/
noncomputable def TrackedTarget.new (r v a : Vec2) (r_cov v_cov a_cov : Mat2) : TrackedTarget :=
  { r := r
    v := v
    a := a
    r_cov := r_cov
    v_cov := v_cov
    a_cov := a_cov
    time_to_intercept := none
    intercept_point := none
    firing_priority := 0
    radar_priority := 0 }

/-- Source `TrackedTarget::update_firing_solution`.  The ambient oort
calls `position()` / `velocity()` are the parameters `shipPos` /
`shipVel`; the Rust early returns become the `match` / `if` branches. -/
noncomputable def TrackedTarget.update_firing_solution (shipPos shipVel : Vec2)
    (self : TrackedTarget) : TrackedTarget :=
  let r_rel := self.r - shipPos
  let v_rel := self.v - shipVel
  let t_guess : Option ℝ :=
    match self.time_to_intercept with
    | some t => some t
    | none =>
      match firing_solution_const_vel r_rel v_rel BULLET_SPEED with
      | some (t, _) => some t
      | none => none
  match t_guess with
  | none =>
    { self with time_to_intercept := none, intercept_point := none }
  | some tg =>
    let t := firing_solution_const_accel r_rel v_rel self.a BULLET_SPEED tg 1e-4
    if t ≤ 0 then
      { self with time_to_intercept := none, intercept_point := none }
    else
      { self with
          time_to_intercept := some t
          intercept_point := some (self.r + t • self.v + (0.5 * t * t) • self.a) }

/-- The radial variance `u · (Σ·u)` computed inline in
`TrackedTarget::update_priorities` (named here so theorems can speak
about it). -/
noncomputable def TrackedTarget.var_radial (shipPos : Vec2)
    (self : TrackedTarget) : ℝ :=
  let r_rel := self.r - shipPos
  let dist := r_rel.len
  let a := self.r_cov.xx
  let b := self.r_cov.xy
  let d := self.r_cov.yy
  let r_unit := if 0 < dist then r_rel.divScalar dist else Vec2.mk 1 0
  r_unit.x * (a * r_unit.x + b * r_unit.y) + r_unit.y * (b * r_unit.x + d * r_unit.y)

/-- The 2-sigma worst-case minimum possible distance
`(dist - 2 sqrt(var_radial)).max(0.0)` computed inline in
`TrackedTarget::update_priorities`. -/
noncomputable def TrackedTarget.min_possible_distance (shipPos : Vec2)
    (self : TrackedTarget) : ℝ :=
  max ((self.r - shipPos).len - 2 * Real.sqrt (self.var_radial shipPos)) 0

/-- Source `TrackedTarget::update_priorities`. -/
noncomputable def TrackedTarget.update_priorities (shipPos : Vec2)
    (self : TrackedTarget) : TrackedTarget :=
  let firing_priority :=
    match self.time_to_intercept with
    | some t => 1 / max t 1e-6
    | none => 0
  let radar_priority := firing_priority / (self.min_possible_distance shipPos + 1)
  { self with firing_priority := firing_priority, radar_priority := radar_priority }

/-- Source `TrackedTarget::tick`: dead-reckon state and covariance one
tick forward, then refresh the firing solution and the priorities.  The
`draw_diamond` rendering call has no modelled effect. -/
noncomputable def TrackedTarget.tick (shipPos shipVel : Vec2)
    (self : TrackedTarget) : TrackedTarget :=
  let advanced :=
    { self with
        r := self.r + TICK_LENGTH • self.v
        v := self.v + TICK_LENGTH • self.a
        r_cov := self.r_cov.add (self.v_cov.scale TICK_LENGTH)
        v_cov := self.v_cov.add (self.a_cov.scale TICK_LENGTH) }
  (advanced.update_firing_solution shipPos shipVel).update_priorities shipPos

/-- Model of the `Pid` struct in `pid.rs`. -/
structure Pid where
  kp : ℝ
  ki : ℝ
  kd : ℝ
  integral : ℝ
  prev_error : Option ℝ

/-- Source `Pid::new`. -/
noncomputable def Pid.new (kp ki kd : ℝ) : Pid :=
  { kp := kp, ki := ki, kd := kd, integral := 0, prev_error := none }

/-- Source `Pid::reset`. -/
noncomputable def Pid.reset (self : Pid) : Pid :=
  { self with integral := 0, prev_error := none }

/-- Source `Pid::update`.  The Rust `assert!(dt > 0.0)` panic is modelled
as `none`; a normal return of control effort `u` together with the
mutated controller state is `some (u, state)`. -/
noncomputable def Pid.update (self : Pid) (error dt : ℝ) : Option (ℝ × Pid) :=
  if 0 < dt then
    let p := self.kp * error
    let integral_increment :=
      match self.prev_error with
      | some prev => 0.5 * (error + prev) * dt
      | none => error * dt
    let integral := self.integral + integral_increment
    let i := self.ki * integral
    let derivative :=
      match self.prev_error with
      | some prev => (error - prev) / dt
      | none => 0
    let d := self.kd * derivative
    some (p + i + d, { self with integral := integral, prev_error := some error })
  else
    none

/-- Model of the `KalmanPosVel2d` struct in `kalman.rs`.  The external
`maths_rs` 4x4 matrices carry standard matrix semantics, modelled with
Mathlib matrices over `Fin 4`. -/
structure KalmanPosVel2d where
  x : Fin 4 → ℝ
  p : Matrix (Fin 4) (Fin 4) ℝ
  f : Matrix (Fin 4) (Fin 4) ℝ
  q : Matrix (Fin 4) (Fin 4) ℝ
  h : Matrix (Fin 4) (Fin 4) ℝ
  r : Matrix (Fin 4) (Fin 4) ℝ

/-- Source helper `mat4_add` in `kalman.rs`: entrywise addition of the
16 stored components. -/
noncomputable def mat4_add (left right : Matrix (Fin 4) (Fin 4) ℝ) : Matrix (Fin 4) (Fin 4) ℝ :=
  Matrix.of fun i j => left i j + right i j

/-- Source `KalmanPosVel2d::predict`:
`x = f * x; p = mat4_add(f * p * f.transpose(), q)`. -/
noncomputable def KalmanPosVel2d.predict (self : KalmanPosVel2d) : KalmanPosVel2d :=
  { self with
      x := self.f.mulVec self.x
      p := mat4_add (self.f * self.p * self.f.transpose) self.q }

/- ------------------------------------------------------------------ -/
/- Helper lemmas                                                       -/
/- ------------------------------------------------------------------ -/

theorem Vec2.dot_self_nonneg (v : Vec2) : 0 ≤ v.dot v := by
  unfold Vec2.dot
  nlinarith [sq_nonneg v.x, sq_nonneg v.y]

theorem Vec2.dot_self_pos (v : Vec2) (hv : v ≠ ⟨0, 0⟩) : 0 < v.dot v := by
  rcases lt_or_eq_of_le (Vec2.dot_self_nonneg v) with h | h
  · exact h
  · exfalso
    apply hv
    unfold Vec2.dot at h
    have hx : v.x = 0 := by nlinarith [sq_nonneg v.x, sq_nonneg v.y]
    have hy : v.y = 0 := by nlinarith [sq_nonneg v.x, sq_nonneg v.y]
    obtain ⟨x, y⟩ := v
    simp only [Vec2.mk.injEq]
    exact ⟨hx, hy⟩

@[simp] theorem TrackedTarget.update_priorities_r (pos : Vec2) (tt : TrackedTarget) :
    (tt.update_priorities pos).r = tt.r := rfl

@[simp] theorem TrackedTarget.update_priorities_v (pos : Vec2) (tt : TrackedTarget) :
    (tt.update_priorities pos).v = tt.v := rfl

@[simp] theorem TrackedTarget.update_priorities_a (pos : Vec2) (tt : TrackedTarget) :
    (tt.update_priorities pos).a = tt.a := rfl

@[simp] theorem TrackedTarget.update_priorities_a_cov (pos : Vec2) (tt : TrackedTarget) :
    (tt.update_priorities pos).a_cov = tt.a_cov := rfl

@[simp] theorem TrackedTarget.update_priorities_tti (pos : Vec2) (tt : TrackedTarget) :
    (tt.update_priorities pos).time_to_intercept = tt.time_to_intercept := rfl

@[simp] theorem TrackedTarget.update_priorities_ip (pos : Vec2) (tt : TrackedTarget) :
    (tt.update_priorities pos).intercept_point = tt.intercept_point := rfl

/-- Unfolding lemma for one iteration of the Newton loop. -/
theorem newtonLoop_succ (p4 p3 p2 p1 p0 tol t : ℝ) (n : ℕ) :
    newtonLoop p4 p3 p2 p1 p0 tol (n + 1) t =
      if |quarticDF p4 p3 p2 p1 t| < 1e-6 then t
      else if |newtonStep p4 p3 p2 p1 p0 t - t| < tol then t
      else newtonLoop p4 p3 p2 p1 p0 tol n (newtonStep p4 p3 p2 p1 p0 t) := rfl

/-- The Newton loop with fuel `n` performs at most `n` pure Newton updates
and returns the iterate it stops at. -/
theorem newtonLoop_exists_iterate (p4 p3 p2 p1 p0 tol : ℝ) :
    ∀ (n : ℕ) (t : ℝ), ∃ k, k ≤ n ∧
      newtonLoop p4 p3 p2 p1 p0 tol n t = (newtonStep p4 p3 p2 p1 p0)^[k] t := by
  intro n
  induction n with
  | zero => exact fun t => ⟨0, le_refl 0, rfl⟩
  | succ n ih =>
    intro t
    rw [newtonLoop_succ]
    split_ifs with h1 h2
    · exact ⟨0, Nat.zero_le _, rfl⟩
    · exact ⟨0, Nat.zero_le _, rfl⟩
    · obtain ⟨k, hk, he⟩ := ih (newtonStep p4 p3 p2 p1 p0 t)
      refine ⟨k + 1, by omega, ?_⟩
      rw [Function.iterate_succ_apply]
      exact he

/- ------------------------------------------------------------------ -/
/- Claim theorems                                                      -/
/- ------------------------------------------------------------------ -/

/-- The coupling invariant of claim C2: `time_to_intercept` and
`intercept_point` are both absent or both present; when present the time
is strictly positive and the point is `r + v t + 0.5 a t^2`. -/
def TrackedTarget.solution_inv (tt : TrackedTarget) : Prop :=
  (tt.time_to_intercept = none ∧ tt.intercept_point = none) ∨
  (∃ t, 0 < t ∧ tt.time_to_intercept = some t ∧
    tt.intercept_point = some (tt.r + t • tt.v + (0.5 * t * t) • tt.a))

theorem TrackedTarget.update_firing_solution_inv (pos vel : Vec2) (tt : TrackedTarget) :
    (tt.update_firing_solution pos vel).solution_inv := by
  rcases htti : tt.time_to_intercept with _ | t0
  · rcases hcv : firing_solution_const_vel (tt.r - pos) (tt.v - vel) BULLET_SPEED
      with _ | ⟨t, p⟩
    · left
      constructor <;>
        simp [TrackedTarget.update_firing_solution, htti, hcv]
    · simp only [TrackedTarget.update_firing_solution, htti, hcv]
      split_ifs with h
      · left; exact ⟨rfl, rfl⟩
      · right; exact ⟨_, by linarith [not_le.mp h], rfl, rfl⟩
  · simp only [TrackedTarget.update_firing_solution, htti]
    split_ifs with h
    · left; exact ⟨rfl, rfl⟩
    · right; exact ⟨_, by linarith [not_le.mp h], rfl, rfl⟩

theorem TrackedTarget.update_priorities_inv (pos : Vec2) (tt : TrackedTarget)
    (h : tt.solution_inv) : (tt.update_priorities pos).solution_inv := by
  unfold TrackedTarget.solution_inv at h ⊢
  simpa using h

/-- C2: after construction and after every `tick` or
`update_firing_solution`, `time_to_intercept` and `intercept_point` are
both present or both absent; when present the time is strictly positive
and the point equals `r + v t + 0.5 a t^2` at `t = time_to_intercept`. -/
theorem tracked_target_solution_coupling :
    (∀ (r v a : Vec2) (rc vc ac : Mat2),
      (TrackedTarget.new r v a rc vc ac).solution_inv) ∧
    (∀ (pos vel : Vec2) (tt : TrackedTarget),
      (tt.update_firing_solution pos vel).solution_inv) ∧
    (∀ (pos vel : Vec2) (tt : TrackedTarget),
      (tt.tick pos vel).solution_inv) := by
  refine ⟨fun r v a rc vc ac => Or.inl ⟨rfl, rfl⟩,
          TrackedTarget.update_firing_solution_inv, fun pos vel tt => ?_⟩
  exact TrackedTarget.update_priorities_inv pos _
    (TrackedTarget.update_firing_solution_inv pos vel _)

/-- C6: `Pid::update` panics (modelled `none`) exactly when `dt` is not
strictly positive, and returns normally (modelled `some`) exactly when
`0 < dt`. -/
theorem pid_update_none_iff (p : Pid) (e dt : ℝ) :
    p.update e dt = none ↔ dt ≤ 0 := by
  unfold Pid.update
  split_ifs with h
  · exact iff_of_false (by simp) (by linarith)
  · exact iff_of_true rfl (by linarith [not_lt.mp h])

/-- C9: `KalmanPosVel2d::predict` replaces the state `x` by `F·x` and the
covariance `P` by `F·P·Fᵀ + Q` (also stated entrywise), and leaves the
configuration matrices `F`, `Q`, `H`, `R` unchanged. -/
theorem kalman_predict_spec (k : KalmanPosVel2d) :
    k.predict.x = k.f.mulVec k.x ∧
    k.predict.p = k.f * k.p * k.f.transpose + k.q ∧
    (∀ i j, k.predict.p i j =
      (∑ m : Fin 4, (∑ l : Fin 4, k.f i l * k.p l m) * k.f j m) + k.q i j) ∧
    k.predict.f = k.f ∧ k.predict.q = k.q ∧ k.predict.h = k.h ∧ k.predict.r = k.r := by
  refine ⟨rfl, ?_, ?_, rfl, rfl, rfl, rfl⟩
  · ext i j
    simp [KalmanPosVel2d.predict, mat4_add, Matrix.add_apply]
  · intro i j
    simp [KalmanPosVel2d.predict, mat4_add, Matrix.mul_apply, Matrix.transpose_apply]

/-- C10: `TrackedTarget::tick` never alters the acceleration estimate nor
the acceleration covariance. -/
theorem tick_preserves_acceleration (pos vel : Vec2) (tt : TrackedTarget) :
    (tt.tick pos vel).a = tt.a ∧ (tt.tick pos vel).a_cov = tt.a_cov := by
  have hufs : ∀ (p q : Vec2) (s : TrackedTarget),
      (s.update_firing_solution p q).a = s.a ∧
      (s.update_firing_solution p q).a_cov = s.a_cov := by
    intro p q s
    rcases htti : s.time_to_intercept with _ | t0
    · rcases hcv : firing_solution_const_vel (s.r - p) (s.v - q) BULLET_SPEED
        with _ | ⟨t, pt⟩
      · constructor <;> simp [TrackedTarget.update_firing_solution, htti, hcv]
      · simp only [TrackedTarget.update_firing_solution, htti, hcv]
        split_ifs <;> exact ⟨rfl, rfl⟩
    · simp only [TrackedTarget.update_firing_solution, htti]
      split_ifs <;> exact ⟨rfl, rfl⟩
  unfold TrackedTarget.tick
  obtain ⟨h1, h2⟩ := hufs pos vel _
  constructor
  · rw [TrackedTarget.update_priorities_a, h1]
  · rw [TrackedTarget.update_priorities_a_cov, h2]

/-- C3: `firing_solution_const_accel` performs at most `MAX_ITER = 100`
Newton updates and returns the iterate it stops at; the loop exits early
returning the current iterate when the derivative magnitude drops below
`1e-6`, or when two successive iterates differ by less than `tol`. -/
theorem const_accel_newton_bound (r v a : Vec2) (s g tol : ℝ) :
    (∃ k, k ≤ MAX_ITER ∧
      firing_solution_const_accel r v a s g tol =
        (newtonStep (0.5 * a.dot a) (v.dot a) (v.dot v + r.dot a - s * s)
          (2 * r.dot v) (r.dot r))^[k] g) ∧
    (∀ (n : ℕ) (t : ℝ),
      |quarticDF (0.5 * a.dot a) (v.dot a) (v.dot v + r.dot a - s * s)
          (2 * r.dot v) t| < 1e-6 →
        newtonLoop (0.5 * a.dot a) (v.dot a) (v.dot v + r.dot a - s * s)
          (2 * r.dot v) (r.dot r) tol (n + 1) t = t) ∧
    (∀ (n : ℕ) (t : ℝ),
      1e-6 ≤ |quarticDF (0.5 * a.dot a) (v.dot a) (v.dot v + r.dot a - s * s)
          (2 * r.dot v) t| →
      |newtonStep (0.5 * a.dot a) (v.dot a) (v.dot v + r.dot a - s * s)
          (2 * r.dot v) (r.dot r) t - t| < tol →
        newtonLoop (0.5 * a.dot a) (v.dot a) (v.dot v + r.dot a - s * s)
          (2 * r.dot v) (r.dot r) tol (n + 1) t = t) := by
  refine ⟨?_, ?_, ?_⟩
  · exact newtonLoop_exists_iterate _ _ _ _ _ _ MAX_ITER g
  · intro n t h
    rw [newtonLoop_succ, if_pos h]
  · intro n t h1 h2
    rw [newtonLoop_succ, if_neg (not_lt.mpr h1), if_pos h2]

/-- Witness for C3: at the all-zero coefficients the derivative is `0`,
so the loop exits on its first iteration returning the initial guess. -/
theorem const_accel_newton_bound_witness :
    newtonLoop 0 0 0 0 0 1 1 2 = 2 := by
  have h := (const_accel_newton_bound ⟨0, 0⟩ ⟨0, 0⟩ ⟨0, 0⟩ 0 2 1).2.1 0 2
    (by norm_num [quarticDF, Vec2.dot])
  simpa [Vec2.dot] using h

/-- C5: `Pid::update` returns `kp e + ki I + kd D` with trapezoidal
integral accumulation after the first call, rectangular accumulation and
zero derivative on the first call; in particular a pure-proportional
controller returns exactly `2.0` on `update(2.0, 0.02)`. -/
theorem pid_update_formula (p : Pid) (e dt : ℝ) (hdt : 0 < dt) :
    (p.prev_error = none →
      p.update e dt = some
        (p.kp * e + p.ki * (p.integral + e * dt) + p.kd * 0,
         { p with integral := p.integral + e * dt, prev_error := some e })) ∧
    (∀ pe, p.prev_error = some pe →
      p.update e dt = some
        (p.kp * e + p.ki * (p.integral + 0.5 * (e + pe) * dt) +
           p.kd * ((e - pe) / dt),
         { p with integral := p.integral + 0.5 * (e + pe) * dt,
                  prev_error := some e })) ∧
    (Pid.new 1 0 0).update 2 0.02 =
      some (2, { Pid.new 1 0 0 with integral := 2 * 0.02, prev_error := some 2 }) := by
  refine ⟨?_, ?_, ?_⟩
  · intro hnone
    simp [Pid.update, if_pos hdt, hnone]
  · intro pe hsome
    simp [Pid.update, if_pos hdt, hsome]
  · have h2 : (0 : ℝ) < 0.02 := by norm_num
    simp [Pid.update, Pid.new, if_pos h2]

/-- Witness for C5: the concrete pure-proportional first call. -/
theorem pid_update_formula_witness :
    (Pid.new 1 0 0).update 2 0.02 =
      some (2, { Pid.new 1 0 0 with integral := 2 * 0.02, prev_error := some 2 }) :=
  (pid_update_formula (Pid.new 1 0 0) 2 0.02 (by norm_num)).2.2

/-- Roots of the quadratic `A u^2 + B u + C` via the square root of the
discriminant, specialised to the expressions used by the solver. -/
theorem quad_root_iff (A B C : ℝ) (hA : A ≠ 0) (hD : 0 ≤ B * B - 4 * A * C)
    (u : ℝ) :
    A * (u * u) + B * u + C = 0 ↔
      u = (-B + Real.sqrt (B * B - 4 * A * C)) / (2 * A) ∨
      u = (-B - Real.sqrt (B * B - 4 * A * C)) / (2 * A) := by
  have h : discrim A B C =
      Real.sqrt (B * B - 4 * A * C) * Real.sqrt (B * B - 4 * A * C) := by
    rw [Real.mul_self_sqrt hD, discrim]
    ring
  exact quadratic_eq_zero_iff hA h u

theorem dot_expand (r v : Vec2) (u : ℝ) :
    (r + u • v).dot (r + u • v) =
      (v.dot v) * (u * u) + 2 * v.dot r * u + r.dot r := by
  simp only [Vec2.dot, Vec2.add_def, Vec2.smul_def]
  ring

/-- For `t > 0` the intercept equation `|r + t v| = s t` is equivalent to
the quadratic `(v·v - s²) t² + (2 v·r) t + r·r = 0` formed by the solver. -/
theorem len_eq_iff_quad (r v : Vec2) (s u : ℝ) (hs : 0 < s) (hu : 0 < u) :
    (r + u • v).len = s * u ↔
      (v.dot v - s * s) * (u * u) + 2 * v.dot r * u + r.dot r = 0 := by
  unfold Vec2.len
  rw [dot_expand]
  constructor
  · intro h
    have hnn : 0 ≤ v.dot v * (u * u) + 2 * v.dot r * u + r.dot r := by
      rw [← dot_expand]
      exact Vec2.dot_self_nonneg _
    have h2 : v.dot v * (u * u) + 2 * v.dot r * u + r.dot r = (s * u) ^ 2 := by
      rw [← Real.sq_sqrt hnn, h]
    linear_combination h2
  · intro h
    have hX : v.dot v * (u * u) + 2 * v.dot r * u + r.dot r = s * u * (s * u) := by
      linear_combination h
    rw [hX]
    exact Real.sqrt_mul_self (by positivity)

/-- C1: with projectile speed above the target speed, the closed-form
solver returns the smallest strictly positive root of `|r + v t| = s t`
together with the aim point `r + v t`, and returns `none` exactly when no
strictly positive root exists. -/
theorem const_vel_correct (r v : Vec2) (s : ℝ) (hs : v.len < s) :
    (∀ t p, firing_solution_const_vel r v s = some (t, p) →
      0 < t ∧ (r + t • v).len = s * t ∧ p = r + t • v ∧
      ∀ u, 0 < u → (r + u • v).len = s * u → t ≤ u) ∧
    (firing_solution_const_vel r v s = none →
      ∀ u, 0 < u → (r + u • v).len ≠ s * u) := by
  have hlen0 : 0 ≤ v.len := Real.sqrt_nonneg _
  have hs0 : 0 < s := lt_of_le_of_lt hlen0 hs
  have hdotv : v.dot v = v.len * v.len :=
    (Real.mul_self_sqrt (Vec2.dot_self_nonneg v)).symm
  simp only [firing_solution_const_vel]
  set A := Vec2.dot v v - s * s with hA_def
  set B := 2 * Vec2.dot v r with hB_def
  set C := Vec2.dot r r with hC_def
  set D := B * B - 4 * A * C with hD_def
  have hA : A < 0 := by
    rw [hA_def]
    nlinarith
  have hC0 : 0 ≤ C := Vec2.dot_self_nonneg r
  have hD0 : 0 ≤ D := by
    rw [hD_def]
    nlinarith [mul_self_nonneg B, mul_nonneg (neg_nonneg.mpr hA.le) hC0]
  have hroot : ∀ u, A * (u * u) + B * u + C = 0 ↔
      u = (-B + Real.sqrt D) / (2 * A) ∨ u = (-B - Real.sqrt D) / (2 * A) := by
    intro u
    have h := quad_root_iff A B C hA.ne (hD_def ▸ hD0) u
    rwa [← hD_def] at h
  have hEq : ∀ u, 0 < u → ((r + u • v).len = s * u ↔ A * (u * u) + B * u + C = 0) := by
    intro u hu
    rw [hA_def, hB_def, hC_def]
    exact len_eq_iff_quad r v s u hs0 hu
  set T1 := (-B - Real.sqrt D) / (2 * A) with hT1_def
  set T2 := (-B + Real.sqrt D) / (2 * A) with hT2_def
  have hT1root : A * (T1 * T1) + B * T1 + C = 0 := (hroot T1).mpr (Or.inr rfl)
  have hT2root : A * (T2 * T2) + B * T2 + C = 0 := (hroot T2).mpr (Or.inl rfl)
  have hT21 : T2 ≤ T1 := by
    have hsub : T1 - T2 = -(2 * Real.sqrt D) / (2 * A) := by
      rw [hT1_def, hT2_def, div_sub_div_same]
      congr 1
      ring
    have hge : 0 ≤ T1 - T2 := by
      rw [hsub]
      exact div_nonneg_iff.mpr
        (Or.inr ⟨by linarith [Real.sqrt_nonneg D], by linarith⟩)
    linarith
  constructor
  · intro t p hsome
    rw [if_neg (not_lt.mpr hD0)] at hsome
    split_ifs at hsome with h1 h2 h3
    · simp only [Option.some.injEq, Prod.mk.injEq] at hsome
      obtain ⟨ht, hp⟩ := hsome
      have hmin : min T1 T2 = T2 := min_eq_right hT21
      refine ⟨?_, ?_, ?_, ?_⟩
      · rw [← ht]
        exact lt_min h1 h2
      · rw [← ht, hmin]
        exact (hEq T2 h2).mpr hT2root
      · rw [← hp, ← ht]
      · intro u hu hlen
        rcases (hroot u).mp ((hEq u hu).mp hlen) with h | h
        · rw [← ht, h]
          exact min_le_right _ _
        · rw [← ht, h]
          exact min_le_left _ _
    · simp only [Option.some.injEq, Prod.mk.injEq] at hsome
      obtain ⟨ht, hp⟩ := hsome
      refine ⟨?_, ?_, ?_, ?_⟩
      · rw [← ht]
        exact h1
      · rw [← ht]
        exact (hEq T1 h1).mpr hT1root
      · rw [← hp, ← ht]
      · intro u hu hlen
        rcases (hroot u).mp ((hEq u hu).mp hlen) with h | h
        · exact absurd (h ▸ hu) h2
        · rw [← ht, h]
    · exfalso
      linarith [not_lt.mp h1]
  · intro hnone u hu hlen
    rw [if_neg (not_lt.mpr hD0)] at hnone
    split_ifs at hnone with h1 h2 h3
    rcases (hroot u).mp ((hEq u hu).mp hlen) with h | h
    · exact absurd (h ▸ hu) h3
    · exact absurd (h ▸ hu) h1

/-- Concrete evaluation of the closed-form solver on a stationary target
three units ahead with unit projectile speed. -/
theorem const_vel_example_eval :
    firing_solution_const_vel ⟨3, 0⟩ ⟨0, 0⟩ 1 = some (3, ⟨3, 0⟩) := by
  have h36 : Real.sqrt 36 = 6 := by
    rw [show (36 : ℝ) = 6 ^ 2 by norm_num, Real.sqrt_sq (by norm_num)]
  norm_num [firing_solution_const_vel, Vec2.dot, Vec2.add_def, Vec2.smul_def, h36]

/-- Witness for C1: the solver's answer on the concrete example is a
positive time satisfying the intercept equation. -/
theorem const_vel_correct_witness :
    0 < (3 : ℝ) ∧ (Vec2.mk 3 0 + (3 : ℝ) • Vec2.mk 0 0).len = 1 * 3 := by
  have hlt : (Vec2.mk 0 0).len < 1 := by
    norm_num [Vec2.len, Vec2.dot]
  have h := (const_vel_correct ⟨3, 0⟩ ⟨0, 0⟩ 1 hlt).1 3 ⟨3, 0⟩ const_vel_example_eval
  exact ⟨h.1, h.2.1⟩

/-- C7: a receding target (`v` a non-negative multiple of `r ≠ 0`) that is
at least as fast as the projectile admits no solution: the solver returns
`none`. -/
theorem const_vel_receding_none (r v : Vec2) (s k : ℝ)
    (hr : r ≠ ⟨0, 0⟩) (hk : 0 ≤ k) (hv : v = k • r) (hs0 : 0 ≤ s)
    (hs : s ≤ v.len) :
    firing_solution_const_vel r v s = none := by
  have hc : 0 < r.dot r := Vec2.dot_self_pos r hr
  have hlen : v.len * v.len = v.dot v := Real.mul_self_sqrt (Vec2.dot_self_nonneg v)
  have hvv : s * s ≤ v.dot v := by nlinarith [Real.sqrt_nonneg (v.dot v)]
  have hbr : v.dot r = k * r.dot r := by
    rw [hv]
    simp only [Vec2.dot, Vec2.smul_def]
    ring
  simp only [firing_solution_const_vel]
  set A := Vec2.dot v v - s * s with hA_def
  set B := 2 * Vec2.dot v r with hB_def
  set C := Vec2.dot r r with hC_def
  set D := B * B - 4 * A * C with hD_def
  have hA0 : 0 ≤ A := by rw [hA_def]; linarith
  have hB0 : 0 ≤ B := by
    rw [hB_def, hbr]
    nlinarith
  have hC0 : 0 < C := hc
  have hDB : D ≤ B * B := by rw [hD_def]; nlinarith
  have hsq : Real.sqrt D ≤ B := by
    calc Real.sqrt D ≤ Real.sqrt (B * B) := Real.sqrt_le_sqrt hDB
      _ = B := Real.sqrt_mul_self hB0
  have hT1le : (-B - Real.sqrt D) / (2 * A) ≤ 0 :=
    div_nonpos_iff.mpr (Or.inr ⟨by linarith [Real.sqrt_nonneg D], by linarith⟩)
  have hT2le : (-B + Real.sqrt D) / (2 * A) ≤ 0 :=
    div_nonpos_iff.mpr (Or.inr ⟨by linarith, by linarith⟩)
  split_ifs with h1 h2 h3 <;>
    first
      | rfl
      | (exfalso; linarith)

/-- Witness for C7: a target at `(1,0)` receding at speed `2` outruns a
unit-speed projectile; the solver returns `none`. -/
theorem const_vel_receding_none_witness :
    firing_solution_const_vel ⟨1, 0⟩ ⟨2, 0⟩ 1 = none := by
  have h4 : Real.sqrt 4 = 2 := by
    rw [show (4 : ℝ) = 2 ^ 2 by norm_num, Real.sqrt_sq (by norm_num)]
  refine const_vel_receding_none ⟨1, 0⟩ ⟨2, 0⟩ 1 2 ?_ (by norm_num) ?_ (by norm_num) ?_
  · intro h
    exact absurd (congrArg Vec2.x h) (by norm_num)
  · simp [Vec2.smul_def]
  · norm_num [Vec2.len, Vec2.dot, h4]

/-- A Newton step at an exact root does not move. -/
theorem newtonStep_fixed (p4 p3 p2 p1 p0 t : ℝ)
    (hf : quarticF p4 p3 p2 p1 p0 t = 0) :
    newtonStep p4 p3 p2 p1 p0 t = t := by
  unfold newtonStep
  rw [hf, zero_div, sub_zero]

/-- The Newton loop started at an exact root returns it unchanged. -/
theorem newtonLoop_fixed (p4 p3 p2 p1 p0 tol t : ℝ)
    (hf : quarticF p4 p3 p2 p1 p0 t = 0) :
    ∀ n, newtonLoop p4 p3 p2 p1 p0 tol n t = t := by
  intro n
  induction n with
  | zero => rfl
  | succ n ih =>
    rw [newtonLoop_succ]
    split_ifs with h1 h2
    · rfl
    · rfl
    · rw [newtonStep_fixed p4 p3 p2 p1 p0 t hf]
      exact ih

/-- Inversion for the closed-form solver: a `some` answer carries a
strictly positive root of the quadratic it formed. -/
theorem const_vel_some_root (r v : Vec2) (s t0 : ℝ) (p : Vec2)
    (hsome : firing_solution_const_vel r v s = some (t0, p)) :
    0 < t0 ∧
      (Vec2.dot v v - s * s) * (t0 * t0) + 2 * Vec2.dot v r * t0 + Vec2.dot r r = 0 := by
  simp only [firing_solution_const_vel] at hsome
  by_cases hA0 : Vec2.dot v v - s * s = 0
  · exfalso
    rw [hA0] at hsome
    simp at hsome
  · set A := Vec2.dot v v - s * s with hA_def
    set B := 2 * Vec2.dot v r with hB_def
    set C := Vec2.dot r r with hC_def
    set D := B * B - 4 * A * C with hD_def
    rcases lt_or_le D 0 with hD | hD
    · rw [if_pos hD] at hsome
      exact Option.noConfusion hsome
    · rw [if_neg (not_lt.mpr hD)] at hsome
      have hroot : ∀ u, A * (u * u) + B * u + C = 0 ↔
          u = (-B + Real.sqrt D) / (2 * A) ∨ u = (-B - Real.sqrt D) / (2 * A) := by
        intro u
        have h := quad_root_iff A B C hA0 (hD_def ▸ hD) u
        rwa [← hD_def] at h
      set T1 := (-B - Real.sqrt D) / (2 * A) with hT1_def
      set T2 := (-B + Real.sqrt D) / (2 * A) with hT2_def
      have hT1root : A * (T1 * T1) + B * T1 + C = 0 := (hroot T1).mpr (Or.inr rfl)
      have hT2root : A * (T2 * T2) + B * T2 + C = 0 := (hroot T2).mpr (Or.inl rfl)
      split_ifs at hsome with h1 h2 h3
      · simp only [Option.some.injEq, Prod.mk.injEq] at hsome
        obtain ⟨ht, hp⟩ := hsome
        constructor
        · rw [← ht]
          exact lt_min h1 h2
        · rw [← ht]
          rcases min_cases T1 T2 with ⟨hmin, _⟩ | ⟨hmin, _⟩
          · rw [hmin]; exact hT1root
          · rw [hmin]; exact hT2root
      · simp only [Option.some.injEq, Prod.mk.injEq] at hsome
        obtain ⟨ht, hp⟩ := hsome
        exact ⟨ht ▸ h1, ht ▸ hT1root⟩
      · simp only [Option.some.injEq, Prod.mk.injEq] at hsome
        obtain ⟨ht, hp⟩ := hsome
        exact ⟨ht ▸ h3, ht ▸ hT2root⟩

/-- C4: with zero relative acceleration and the constant-velocity time as
initial guess, the Newton refiner returns that time exactly (so in
particular within any tolerance): the quartic degenerates to the very
quadratic the closed form solved, and the guess is an exact root. -/
theorem const_accel_zero_accel_refines (r v : Vec2) (s t0 tol : ℝ) (p : Vec2)
    (hsome : firing_solution_const_vel r v s = some (t0, p)) :
    firing_solution_const_accel r v ⟨0, 0⟩ s t0 tol = t0 := by
  obtain ⟨ht0, hroot⟩ := const_vel_some_root r v s t0 p hsome
  have hq : quarticF (0.5 * Vec2.dot ⟨0, 0⟩ ⟨0, 0⟩) (Vec2.dot v ⟨0, 0⟩)
      (Vec2.dot v v + Vec2.dot r ⟨0, 0⟩ - s * s) (2 * Vec2.dot r v)
      (Vec2.dot r r) t0 = 0 := by
    simp only [quarticF, Vec2.dot] at hroot ⊢
    linear_combination hroot
  exact newtonLoop_fixed _ _ _ _ _ tol t0 hq MAX_ITER

/-- Witness for C4: on the concrete example the refiner reproduces the
closed-form time `3` exactly. -/
theorem const_accel_zero_accel_refines_witness :
    firing_solution_const_accel ⟨3, 0⟩ ⟨0, 0⟩ ⟨0, 0⟩ 1 3 1e-4 = 3 :=
  const_accel_zero_accel_refines ⟨3, 0⟩ ⟨0, 0⟩ 1 3 1e-4 ⟨3, 0⟩ const_vel_example_eval

/-- Unfolding of `radar_priority` after `update_priorities`. -/
theorem update_priorities_radar (pos : Vec2) (tt : TrackedTarget) :
    (tt.update_priorities pos).radar_priority =
      (match tt.time_to_intercept with
        | some t => 1 / max t 1e-6
        | none => 0) / (tt.min_possible_distance pos + 1) := rfl

/-- A tracked target sitting exactly at the ship position, with unit
position covariance and a cached 1-second intercept. -/
noncomputable def ttLowVar : TrackedTarget :=
  { r := ⟨0, 0⟩, r_cov := ⟨1, 0, 0, 1⟩, v := ⟨0, 0⟩, v_cov := Mat2.zero,
    a := ⟨0, 0⟩, a_cov := Mat2.zero, time_to_intercept := some 1,
    intercept_point := some ⟨0, 0⟩, firing_priority := 0, radar_priority := 0 }

/-- The same target with a four-fold larger position covariance. -/
noncomputable def ttHighVar : TrackedTarget :=
  { ttLowVar with r_cov := ⟨4, 0, 0, 4⟩ }

/-- Counterexample to C8 as stated: at distance `0` the clamp
`max(dist - 2 sqrt(var), 0)` flattens both minimum possible distances to
`0`, so the larger-variance target gets an equal (not strictly smaller)
minimum distance and an equal (not strictly larger) radar priority. -/
theorem radar_priority_monotone_cex :
    TrackedTarget.var_radial ⟨0, 0⟩ ttLowVar <
      TrackedTarget.var_radial ⟨0, 0⟩ ttHighVar ∧
    ¬ TrackedTarget.min_possible_distance ⟨0, 0⟩ ttHighVar <
        TrackedTarget.min_possible_distance ⟨0, 0⟩ ttLowVar ∧
    ¬ (TrackedTarget.update_priorities ⟨0, 0⟩ ttLowVar).radar_priority <
        (TrackedTarget.update_priorities ⟨0, 0⟩ ttHighVar).radar_priority := by
  have h4 : Real.sqrt 4 = 2 := by
    rw [show (4 : ℝ) = 2 ^ 2 by norm_num, Real.sqrt_sq (by norm_num)]
  have hvarL : TrackedTarget.var_radial ⟨0, 0⟩ ttLowVar = 1 := by
    norm_num [TrackedTarget.var_radial, ttLowVar, Vec2.len, Vec2.dot,
      Vec2.sub_def, Vec2.divScalar]
  have hvarH : TrackedTarget.var_radial ⟨0, 0⟩ ttHighVar = 4 := by
    norm_num [TrackedTarget.var_radial, ttHighVar, ttLowVar, Vec2.len,
      Vec2.dot, Vec2.sub_def, Vec2.divScalar]
  have hminL : TrackedTarget.min_possible_distance ⟨0, 0⟩ ttLowVar = 0 := by
    rw [TrackedTarget.min_possible_distance, hvarL]
    norm_num [ttLowVar, Vec2.len, Vec2.dot, Vec2.sub_def]
  have hminH : TrackedTarget.min_possible_distance ⟨0, 0⟩ ttHighVar = 0 := by
    rw [TrackedTarget.min_possible_distance, hvarH, h4]
    norm_num [ttHighVar, ttLowVar, Vec2.len, Vec2.dot, Vec2.sub_def]
  refine ⟨by rw [hvarL, hvarH]; norm_num, by rw [hminL, hminH]; exact lt_irrefl 0, ?_⟩
  rw [update_priorities_radar, update_priorities_radar]
  show ¬ (1 : ℝ) / max 1 1e-6 / (TrackedTarget.min_possible_distance ⟨0, 0⟩ ttLowVar + 1) <
      1 / max 1 1e-6 / (TrackedTarget.min_possible_distance ⟨0, 0⟩ ttHighVar + 1)
  rw [hminL, hminH]
  exact lt_irrefl _

/-- C8 amended: the strict monotonicity holds provided the smaller radial
variance is non-negative, its 2-sigma bound stays strictly below the
distance (so the `max(..., 0)` clamp does not flatten the comparison),
and a time-to-intercept is cached (so the shared firing priority is
positive). -/
theorem radar_priority_monotone_amended (pos : Vec2) (tt : TrackedTarget)
    (cov : Mat2)
    (hvar : tt.var_radial pos <
      ({ tt with r_cov := cov } : TrackedTarget).var_radial pos)
    (h0 : 0 ≤ tt.var_radial pos)
    (hmin : 2 * Real.sqrt (tt.var_radial pos) < (tt.r - pos).len)
    (ht : tt.time_to_intercept.isSome = true) :
    ({ tt with r_cov := cov } : TrackedTarget).min_possible_distance pos <
      tt.min_possible_distance pos ∧
    (tt.update_priorities pos).radar_priority <
      (({ tt with r_cov := cov } : TrackedTarget).update_priorities pos).radar_priority := by
  have hsq : Real.sqrt (tt.var_radial pos) <
      Real.sqrt (({ tt with r_cov := cov } : TrackedTarget).var_radial pos) :=
    Real.sqrt_lt_sqrt h0 hvar
  have hre : ({ tt with r_cov := cov } : TrackedTarget).r = tt.r := rfl
  have hlowpos : 0 < (tt.r - pos).len - 2 * Real.sqrt (tt.var_radial pos) := by
    linarith
  have hminLow : tt.min_possible_distance pos =
      (tt.r - pos).len - 2 * Real.sqrt (tt.var_radial pos) := by
    rw [TrackedTarget.min_possible_distance]
    exact max_eq_left hlowpos.le
  have hlt : ({ tt with r_cov := cov } : TrackedTarget).min_possible_distance pos <
      tt.min_possible_distance pos := by
    rw [TrackedTarget.min_possible_distance, hre, hminLow]
    exact max_lt (by linarith) hlowpos
  refine ⟨hlt, ?_⟩
  obtain ⟨t0, ht0⟩ := Option.isSome_iff_exists.mp ht
  have htti : ({ tt with r_cov := cov } : TrackedTarget).time_to_intercept =
      tt.time_to_intercept := rfl
  rw [update_priorities_radar, update_priorities_radar, htti, ht0]
  have hfp : (0 : ℝ) < 1 / max t0 1e-6 :=
    one_div_pos.mpr (lt_max_iff.mpr (Or.inr (by norm_num)))
  have hnn : 0 ≤ ({ tt with r_cov := cov } : TrackedTarget).min_possible_distance pos :=
    le_max_right _ _
  rw [ht0] at hlt hnn
  exact div_lt_div_of_pos_left hfp (by linarith) (by linarith)

/-- A tracked target one unit ahead with small position covariance and a
cached 1-second intercept, for the amended-C8 witness. -/
noncomputable def ttNear : TrackedTarget :=
  { r := ⟨1, 0⟩, r_cov := ⟨1 / 16, 0, 0, 1 / 16⟩, v := ⟨0, 0⟩,
    v_cov := Mat2.zero, a := ⟨0, 0⟩, a_cov := Mat2.zero,
    time_to_intercept := some 1, intercept_point := some ⟨1, 0⟩,
    firing_priority := 0, radar_priority := 0 }

/-- Witness for the amended C8 at a concrete pair of targets. -/
theorem radar_priority_monotone_amended_witness :
    ({ ttNear with r_cov := Mat2.mk 4 0 0 4 } : TrackedTarget).min_possible_distance ⟨0, 0⟩ <
      ttNear.min_possible_distance ⟨0, 0⟩ ∧
    (ttNear.update_priorities ⟨0, 0⟩).radar_priority <
      (({ ttNear with r_cov := Mat2.mk 4 0 0 4 } : TrackedTarget).update_priorities ⟨0, 0⟩).radar_priority := by
  have hvarN : TrackedTarget.var_radial ⟨0, 0⟩ ttNear = 1 / 16 := by
    norm_num [TrackedTarget.var_radial, ttNear, Vec2.len, Vec2.dot,
      Vec2.sub_def, Vec2.divScalar]
  have hvarH : TrackedTarget.var_radial ⟨0, 0⟩
      ({ ttNear with r_cov := Mat2.mk 4 0 0 4 } : TrackedTarget) = 4 := by
    norm_num [TrackedTarget.var_radial, ttNear, Vec2.len, Vec2.dot,
      Vec2.sub_def, Vec2.divScalar]
  have hq : Real.sqrt (1 / 16) = 1 / 4 := by
    rw [show (1 / 16 : ℝ) = (1 / 4) ^ 2 by norm_num, Real.sqrt_sq (by norm_num)]
  apply radar_priority_monotone_amended
  · rw [hvarN, hvarH]
    norm_num
  · rw [hvarN]
    norm_num
  · rw [hvarN, hq]
    norm_num [ttNear, Vec2.len, Vec2.dot, Vec2.sub_def]
  · rfl

end NaomiNagata
